import Mathlib

/-!
Shallow embedding of the duration-timestamp library (source/index.ts) and
proofs about it.  Strings are modelled as lists of characters; JavaScript
numbers are restricted to natural numbers, which covers the documented
domain of the library (non-negative integral durations).  Functions that
can throw are modelled with `Except String`, carrying the thrown message.
-/

namespace DurationTimestamp

/-- `secondsInMinute` from the source. -/
def secondsInMinute : Nat := 60

/-- `minutesInHour` from the source. -/
def minutesInHour : Nat := 60

/-- `secondsInHour = secondsInMinute * minutesInHour` from the source. -/
def secondsInHour : Nat := secondsInMinute * minutesInHour

/-- The `TimestampInput` type from the source: a partial tuple, `none`
modelling an absent (`undefined`) field. -/
structure TimestampInput where
  total : Option Nat
  seconds : Option Nat
  minutes : Option Nat
  hours : Option Nat
deriving Repr, DecidableEq

/-- The `Timestamp` interface from the source: after `make`, all four
fields are present numbers. -/
structure Timestamp where
  total : Nat
  seconds : Nat
  minutes : Nat
  hours : Nat
deriving Repr, DecidableEq

/-- Decidable equality of `Except` results, used to evaluate the model on
concrete inputs. -/
instance {ε α : Type} [DecidableEq ε] [DecidableEq α] : DecidableEq (Except ε α) :=
  fun a b =>
  match a, b with
  | .error x, .error y =>
    match decEq x y with
    | .isTrue h => .isTrue (by rw [h])
    | .isFalse h => .isFalse (fun hh => h (by injection hh))
  | .ok x, .ok y =>
    match decEq x y with
    | .isTrue h => .isTrue (by rw [h])
    | .isFalse h => .isFalse (fun hh => h (by injection hh))
  | .error _, .ok _ => .isFalse (fun hh => Except.noConfusion hh)
  | .ok _, .error _ => .isFalse (fun hh => Except.noConfusion hh)

/-- JavaScript `x ?? 0` (also `x || 0` on numbers) for an optional field. -/
def tv (o : Option Nat) : Nat := o.getD 0

/-- JavaScript truthiness of an optional number: `undefined` and `0` are falsy. -/
def truthy (o : Option Nat) : Bool := tv o != 0

/-- `sum` from the source:
`(seconds ?? 0) + (minutes ?? 0) * secondsInMinute + (hours ?? 0) * secondsInHour`. -/
def sum (t : TimestampInput) : Nat :=
  tv t.seconds + tv t.minutes * secondsInMinute + tv t.hours * secondsInHour

/-- `verify` from the source: throws unless `total` is present and equal to
`sum` (in JavaScript `undefined !== sum(...)` always throws). -/
def verify (t : TimestampInput) : Except String Unit :=
  if t.total = some (sum t) then .ok ()
  else .error "timestamp total did not match the sum"

/-- The `mod` helper from the source: given an optional value (default 0)
and a modulus, return the pair (remainder, whole). -/
def mod (value : Option Nat) (m : Nat) : Nat × Nat :=
  (tv value % m, tv value / m)

/-- `make` from the source, translated statement by statement; the in-place
mutation of the input object becomes a chain of updated records. -/
def make (t : TimestampInput) : Except String Timestamp :=
  -- if we have a total, use that
  if truthy t.total then
    -- prepare: zero-fill falsy unit fields
    let t1 : TimestampInput :=
      ⟨t.total, some (tv t.seconds), some (tv t.minutes), some (tv t.hours)⟩
    -- verify when any unit field is truthy
    if truthy t1.seconds || truthy t1.minutes || truthy t1.hours then
      match verify t1 with
      | .error e => .error e
      | .ok _ => .ok ⟨tv t1.total, tv t1.seconds, tv t1.minutes, tv t1.hours⟩
    else
      -- calculate the parts from the total
      let p1 := mod t.total secondsInHour
      let t2 : TimestampInput := ⟨t.total, t1.seconds, some p1.1, some p1.2⟩
      let p2 := mod (some (tv t2.minutes * secondsInMinute)) secondsInMinute
      let t3 : TimestampInput := ⟨t.total, some p2.1, some p2.2, t2.hours⟩
      match verify t3 with
      | .error e => .error e
      | .ok _ => .ok ⟨tv t3.total, tv t3.seconds, tv t3.minutes, tv t3.hours⟩
  else
    -- otherwise, use the parts we have
    let t1 : TimestampInput :=
      if truthy t.seconds then
        let p := mod t.seconds secondsInMinute
        ⟨t.total, some p.1, some (tv t.minutes + p.2), t.hours⟩
      else
        ⟨t.total, some 0, t.minutes, t.hours⟩
    let t2 : TimestampInput :=
      if truthy t1.minutes then
        let p := mod t1.minutes minutesInHour
        ⟨t1.total, t1.seconds, some p.1, some (tv t1.hours + p.2)⟩
      else
        ⟨t1.total, t1.seconds, some 0, t1.hours⟩
    let t3 : TimestampInput :=
      if truthy t2.hours then t2 else ⟨t2.total, t2.seconds, t2.minutes, some 0⟩
    .ok ⟨sum t3, tv t3.seconds, tv t3.minutes, tv t3.hours⟩

/-- The `Format` enumeration from the source. -/
inductive Format where
  | Numeric
  | Seconds
  | Tiny
  | Short
  | Medium
  | Long
deriving Repr, DecidableEq

/-- `pad` from the source: zero-pad a value for `00:00:00` output. -/
def pad (value : Nat) : String :=
  if value = 0 then "00"
  else if value < 10 then "0" ++ toString value
  else toString value

/-- The switch statement of `stringify` from the source, rendering an
already verified timestamp.  The JavaScript `default` branch of the switch
is unreachable because `Format` is a closed enumeration. -/
def stringifySwitch (ts : Timestamp) (format : Format) : String :=
  match format with
    | .Short =>
      let parts :=
        (if ts.hours != 0 then [toString ts.hours ++ "h"] else []) ++
        (if ts.minutes != 0 then [toString ts.minutes ++ "m"] else []) ++
        (if ts.seconds != 0 then [toString ts.seconds ++ "s"] else [])
      let j := String.intercalate " " parts
      if j == "" then "00s" else j
    | .Tiny =>
      let parts :=
        (if ts.hours != 0 then [toString ts.hours ++ "h"] else []) ++
        (if ts.minutes != 0 then [toString ts.minutes ++ "m"] else []) ++
        (if ts.seconds != 0 then [toString ts.seconds ++ "s"] else [])
      let j := String.intercalate "" parts
      if j == "" then "0s" else j
    | .Medium =>
      let parts :=
        (if ts.hours != 0 then [toString ts.hours ++ " hours"] else []) ++
        (if ts.minutes != 0 then [toString ts.minutes ++ " mins"] else []) ++
        (if ts.seconds != 0 then [toString ts.seconds ++ " secs"] else [])
      let j := String.intercalate " " parts
      if j == "" then "0 secs" else j
    | .Long =>
      let parts :=
        (if ts.hours != 0 then [toString ts.hours ++ " hours"] else []) ++
        (if ts.minutes != 0 then [toString ts.minutes ++ " minutes"] else []) ++
        (if ts.seconds != 0 then [toString ts.seconds ++ " seconds"] else [])
      let j := String.intercalate " " parts
      if j == "" then "0 seconds" else j
    | .Numeric =>
      if ts.hours != 0 then
        String.intercalate ":" [toString ts.hours, pad ts.minutes, pad ts.seconds]
      else
        String.intercalate ":"
          [(if ts.minutes != 0 then toString ts.minutes else "0"), pad ts.seconds]
    | .Seconds =>
      toString ts.total ++ "s"

/-- `stringify` from the source: `verify` the timestamp (throwing on
mismatch), then render it with the format switch. -/
def stringify (ts : Timestamp) (format : Format) : Except String String :=
  match verify ⟨some ts.total, some ts.seconds, some ts.minutes, some ts.hours⟩ with
  | .error e => .error e
  | .ok _ => .ok (stringifySwitch ts format)

/-- The `FormatOptions` interface from the source (the source fields named
after reserved words are rendered here as `pre` and `suf`). -/
structure FormatOptions where
  pre : Option String := none
  suf : Option String := none
  format : Option Format := none
  text : Option String := none

/-- JavaScript truthiness of an optional string: `undefined` and the empty
string are falsy. -/
def strTruthy (o : Option String) : Bool := o.getD "" != ""

/-- `makeYoutubeTimestamp` from the source: render display text (explicit
`opts.text` override when truthy, else `stringify` with `opts.format`,
defaulting to `Format.Short`), and emit the anchor fragment when the text
is non-empty. -/
def makeYoutubeTimestamp (ts : Timestamp) (youtubeID : String)
    (opts : FormatOptions) : Except String String :=
  Except.bind
    (if strTruthy opts.text then .ok (opts.text.getD "")
     else stringify ts (opts.format.getD .Short))
    fun text =>
    if text != "" then
      Except.bind (stringify ts .Tiny) fun t =>
      Except.bind (stringify ts .Long) fun title =>
        let url := "https://www.youtube.com/watch?v=" ++ youtubeID ++ "&t=" ++ t
        .ok ((opts.pre.getD "") ++ "<a class=\"youtube-timetamp\" data-total=\"" ++
          toString ts.total ++ "\" href=\"" ++ url ++ "\" title=\"View the video " ++
          youtubeID ++ " at " ++ title ++ "\">" ++ text ++ "</a>" ++ (opts.suf.getD ""))
    else .ok text

/-!
The two regular expressions of the source are embedded as backtracking
matchers over `List Char`.  A matcher returns the list of all local
matches, each as a value together with the number of consumed characters,
enumerated in the JavaScript backtracking preference order (left
alternative first, greedy quantifiers longest first); the overall regex
match is the head of that list.
-/

/-- A backtracking matcher: all local matches with consumed lengths, in
preference order. -/
def Matcher (α : Type) : Type := List Char → List (α × Nat)

/-- Match nothing, yielding `a`. -/
def mpure {α : Type} (a : α) : Matcher α := fun _ => [(a, 0)]

/-- Sequencing of matchers (continuations run on the remaining input). -/
def mbind {α β : Type} (p : Matcher α) (f : α → Matcher β) : Matcher β := fun l =>
  (p l).flatMap fun an => ((f an.1) (l.drop an.2)).map fun bm => (bm.1, an.2 + bm.2)

/-- Map over a matcher result. -/
def mmap {α β : Type} (f : α → β) (p : Matcher α) : Matcher β := fun l =>
  (p l).map fun an => (f an.1, an.2)

/-- Regex alternation: left alternative preferred. -/
def malt {α : Type} (p q : Matcher α) : Matcher α := fun l => p l ++ q l

/-- Greedy `?`: try the present branch first. -/
def mopt {α : Type} (p : Matcher α) : Matcher (Option α) :=
  malt (mmap some p) (mpure none)

/-- Match one character satisfying the predicate. -/
def mcharIf (f : Char → Bool) : Matcher Char := fun l =>
  match l with
  | [] => []
  | c :: _ => if f c then [(c, 1)] else []

/-- Match one literal character. -/
def mchar (c : Char) : Matcher Char := mcharIf (fun d => d == c)

/-- Match a literal character sequence. -/
def mstr (s : List Char) : Matcher Unit := fun l =>
  if s.isPrefixOf l then [((), s.length)] else []

/-- The regex class `\d` (ASCII digits). -/
def isDigitChar (c : Char) : Bool := c.isDigit

/-- The regex class `\s` (JavaScript whitespace, restricted to its ASCII
members, which are the only ones the grammar of this library can meet). -/
def isJsSpace (c : Char) : Bool :=
  c == ' ' || c == '\t' || c == '\n' || c == '\r' || c == '\x0b' || c == '\x0c'

/-- Greedy `\d{1,2}`: two digits preferred over one, capturing the digits. -/
def digits12 : Matcher (List Char) := fun l =>
  match l with
  | [] => []
  | [c1] => if isDigitChar c1 then [([c1], 1)] else []
  | c1 :: c2 :: _ =>
    if isDigitChar c1 then
      if isDigitChar c2 then [([c1, c2], 2), ([c1], 1)] else [([c1], 1)]
    else []

/-- Greedy `\s?` of the decomposer regex. -/
def wsOpt : Matcher Unit := mmap (fun _ => ()) (mopt (mcharIf isJsSpace))

/-- Greedy `+` loop: continue is preferred over stop; `fuel` bounds the
number of further iterations (each iteration of the grammar consumes at
least one character, so input length is always enough fuel). -/
def manyGreedy (fuel : Nat) (p : Matcher Unit) : Matcher Unit :=
  match fuel with
  | 0 => mpure ()
  | fuel' + 1 => malt (mbind p fun _ => manyGreedy fuel' p) (mpure ())

/-- The word alternation `(?:hour|min(?:ute)?|sec(?:ond)?)` of the locator
regex (`timestampsRegex`). -/
def locWord : Matcher Unit :=
  malt (mstr "hour".data)
    (malt (mbind (mstr "min".data) fun _ => mmap (fun _ => ()) (mopt (mstr "ute".data)))
      (mbind (mstr "sec".data) fun _ => mmap (fun _ => ()) (mopt (mstr "ond".data))))

/-- The unit alternation `(?:[hms]| ?(?:hour|min(?:ute)?|sec(?:ond)?)s?)`
of the locator regex. -/
def locUnit : Matcher Unit :=
  malt (mmap (fun _ => ()) (mcharIf (fun c => c == 'h' || c == 'm' || c == 's')))
    (mbind (mopt (mchar ' ')) fun _ =>
      mbind locWord fun _ => mmap (fun _ => ()) (mopt (mchar 's')))

/-- One element `\d{1,2}(?:[hms]|...) ?` of the bits run of the locator
regex (the trailing space is a literal, optional, greedy). -/
def bitsElem : Matcher Unit :=
  mbind digits12 fun _ => mbind locUnit fun _ => mmap (fun _ => ()) (mopt (mchar ' '))

/-- The bits alternative `(?<bits>(?:...)+)` of the locator regex: one
element, then greedily more. -/
def bitsRun (l : List Char) : List (Unit × Nat) :=
  (mbind bitsElem fun _ => manyGreedy l.length bitsElem) l

/-- The colon alternative
`(?:(?<hours>\d{1,2}):)?(?<minutes>\d{1,2}):(?<seconds>\d{1,2})` of the
locator regex, yielding the three captures. -/
def colonAlt : Matcher (Option (List Char) × List Char × List Char) :=
  mbind (mopt (mbind digits12 fun h => mmap (fun _ => h) (mchar ':'))) fun hOpt =>
  mbind digits12 fun m =>
  mbind (mchar ':') fun _ =>
  mbind digits12 fun s =>
  mpure (hOpt, m, s)

/-- The capture groups of a locator match: either the colon form with its
three digit captures, or the bits form with the captured run. -/
inductive LocGroups where
  | colon (hours : Option (List Char)) (minutes seconds : List Char)
  | bits (b : List Char)
deriving Repr, DecidableEq

/-- All matches of the locator regex anchored at the current position, in
preference order: the colon alternative precedes the bits alternative. -/
def locAt (l : List Char) : List (LocGroups × Nat) :=
  ((colonAlt l).map fun r => (LocGroups.colon r.1.1 r.1.2.1 r.1.2.2, r.2)) ++
  ((bitsRun l).map fun r => (LocGroups.bits (l.take r.2), r.2))

/-- `String.prototype.match` semantics for the locator: scan positions
left to right, and at the first position that matches return the capture
groups, the matched span and the split around it (before, matched, after). -/
def findSplit : List Char → Option (List Char × LocGroups × List Char × List Char)
  | [] => none
  | c :: ls =>
    match locAt (c :: ls) with
    | r :: _ => some ([], r.1, (c :: ls).take r.2, (c :: ls).drop r.2)
    | [] =>
      match findSplit ls with
      | none => none
      | some (p, g, m, rest) => some (c :: p, g, m, rest)

/-- The suffix `(?:h|\s?hours?)` of the hours group of the decomposer
regex (`timestampRegex`). -/
def hoursSfx : Matcher Unit :=
  malt (mmap (fun _ => ()) (mchar 'h'))
    (mbind wsOpt fun _ => mbind (mstr "hour".data) fun _ =>
      mmap (fun _ => ()) (mopt (mchar 's')))

/-- The suffix `(?:m|\s?min(?:ute)?s?)` of the minutes group of the
decomposer regex. -/
def minutesSfx : Matcher Unit :=
  malt (mmap (fun _ => ()) (mchar 'm'))
    (mbind wsOpt fun _ => mbind (mstr "min".data) fun _ =>
      mbind (mopt (mstr "ute".data)) fun _ => mmap (fun _ => ()) (mopt (mchar 's')))

/-- The suffix `(?:s|\s?sec(?:ond)?s?)` of the seconds group of the
decomposer regex. -/
def secondsSfx : Matcher Unit :=
  malt (mmap (fun _ => ()) (mchar 's'))
    (mbind wsOpt fun _ => mbind (mstr "sec".data) fun _ =>
      mbind (mopt (mstr "ond".data)) fun _ => mmap (fun _ => ()) (mopt (mchar 's')))

/-- One optional unit group of the decomposer regex:
`(?<unit>\d{1,2})<suffix>\s?`, capturing the digits. -/
def unitPart (sfx : Matcher Unit) : Matcher (List Char) :=
  mbind digits12 fun d => mbind sfx fun _ => mmap (fun _ => d) wsOpt

/-- The body of the decomposer regex: three optional unit groups in
hours, minutes, seconds order. -/
def tsMatcher : Matcher (Option (List Char) × Option (List Char) × Option (List Char)) :=
  mbind (mopt (unitPart hoursSfx)) fun h =>
  mbind (mopt (unitPart minutesSfx)) fun m =>
  mbind (mopt (unitPart secondsSfx)) fun s =>
  mpure (h, m, s)

/-- The anchored (`^...$`) decomposer match on a bits run: the first
backtracking result consuming the whole input, if any. -/
def tsAnchored (l : List Char) :
    Option (Option (List Char) × Option (List Char) × Option (List Char)) :=
  (((tsMatcher l).filter fun r => r.2 == l.length).head?).map fun r => r.1

/-- JavaScript `Number` on a captured digit string (`Number(d || 0)`:
a missing capture yields 0). -/
def numOf (ds : List Char) : Nat :=
  ds.foldl (fun acc c => acc * 10 + (c.toNat - 48)) 0

/-- `Number(capture || 0)` on an optional capture. -/
def numOfOpt (o : Option (List Char)) : Nat := numOf (o.getD [])

/-- `parseCaptureGroups` from the source: no groups is an error; a bits
capture is re-matched against the decomposer regex (failure is an error);
otherwise the colon captures are used; either way `make` builds the
timestamp from the three unit numbers (`total` absent). -/
def parseCaptureGroups (groups : Option LocGroups) : Except String Timestamp :=
  match groups with
  | none => .error "no capture groups"
  | some (.bits b) =>
    match tsAnchored b with
    | none => .error "no bits capture group"
    | some (h, m, s) =>
      make ⟨none, some (numOfOpt s), some (numOfOpt m), some (numOfOpt h)⟩
  | some (.colon h m s) =>
    make ⟨none, some (numOf s), some (numOf m), some (numOfOpt h)⟩

/-- `parse` from the source (default options, hence the canonical locator
regex), on a character list. -/
def parseList (l : List Char) : Except String Timestamp :=
  match findSplit l with
  | none => parseCaptureGroups none
  | some (_, g, _, _) => parseCaptureGroups (some g)

/-- `parse` from the source on a string. -/
def parse (input : String) : Except String Timestamp := parseList input.data

/-- A replacer callback: receives the timestamp and the raw matched text,
returns the replacement text, or `none` for the nullish returns. -/
def Replacer : Type := Timestamp → List Char → Option (List Char)

/-- The scan of `replace` from the source (default options, hence the
global flag on the canonical locator regex): repeatedly find the next
match, parse its capture groups (a thrown parse error propagates and
aborts the whole call), consult the replacer, splice.  The source guards
the replacer call with `if (timestamp)`, but a parse that returns at all
returns an object, so the guard is always taken and is dropped here.
`fuel` bounds the number of matches; every match consumes at least one
character, so input length is always enough. -/
def replaceGo (f : Replacer) : Nat → List Char → Except String (List Char)
  | 0, l => .ok l
  | fuel + 1, l =>
    match findSplit l with
    | none => .ok l
    | some (p, g, m, rest) =>
      match parseCaptureGroups (some g) with
      | .error e => .error e
      | .ok ts =>
        match replaceGo f fuel rest with
        | .error e => .error e
        | .ok rr =>
          .ok (p ++ (match f ts m with | some t => t | none => m) ++ rr)

/-- `replace` from the source on a character list. -/
def replaceList (f : Replacer) (l : List Char) : Except String (List Char) :=
  replaceGo f (l.length + 1) l

/-- `replace` from the source on strings. -/
def replace (input : String) (replacer : Timestamp → String → Option String) :
    Except String String :=
  (replaceList (fun ts m => (replacer ts (String.mk m)).map String.data) input.data).map
    String.mk

/-- A segment of the scan of an input: plain text between matches, or a
matched span with its capture groups. -/
inductive Seg where
  | plain (t : List Char)
  | found (g : LocGroups) (t : List Char)
deriving Repr, DecidableEq

/-- The decomposition of an input into scan segments (same scan order as
`replaceGo`). -/
def segmentsGo : Nat → List Char → List Seg
  | 0, l => [.plain l]
  | fuel + 1, l =>
    match findSplit l with
    | none => [.plain l]
    | some (p, g, m, rest) => .plain p :: .found g m :: segmentsGo fuel rest

/-- The segment decomposition of an input. -/
def segments (l : List Char) : List Seg := segmentsGo (l.length + 1) l

/-- The raw text of a segment. -/
def segText : Seg → List Char
  | .plain t => t
  | .found _ t => t

/-- What the substitution engine produces for one segment when it does not
abort: plain text verbatim; a matched span is replaced exactly when its
parse succeeds and the replacer returns a replacement. -/
def renderSeg (f : Replacer) : Seg → List Char
  | .plain t => t
  | .found g t =>
    match parseCaptureGroups (some g) with
    | .error _ => t
    | .ok ts => match f ts t with | some r => r | none => t

/-- Concatenate the images of the segments. -/
def joinSegs (g : Seg → List Char) (segs : List Seg) : List Char :=
  segs.foldr (fun s acc => g s ++ acc) []

example : make ⟨some 0, none, none, none⟩ = .ok ⟨0, 0, 0, 0⟩ := by decide
example : make ⟨some 61, none, none, none⟩ =
    .error "timestamp total did not match the sum" := by decide
example : make ⟨some 3600, none, none, none⟩ = .ok ⟨3600, 0, 0, 3600 / 3600⟩ := by decide
example : make ⟨none, some 125, none, none⟩ = .ok ⟨125, 5, 2, 0⟩ := by decide
example : make ⟨some 0, some 3, none, none⟩ = .ok ⟨3, 3, 0, 0⟩ := by decide
example : make ⟨some 5, some 3, none, none⟩ =
    .error "timestamp total did not match the sum" := by decide
example : stringify ⟨0, 0, 0, 0⟩ .Numeric = .ok "0:00" := by decide
example : stringify ⟨3723, 3, 2, 1⟩ .Numeric = .ok "1:02:03" := by decide
example : stringify ⟨3723, 3, 2, 1⟩ .Medium = .ok "1 hours 2 mins 3 secs" := by decide
example : makeYoutubeTimestamp ⟨0, 0, 0, 0⟩ "abc" {} =
    .ok "<a class=\"youtube-timetamp\" data-total=\"0\" href=\"https://www.youtube.com/watch?v=abc&t=0s\" title=\"View the video abc at 0 seconds\">00s</a>" := by
  decide

example : parse "1h2m3s" = .ok ⟨3723, 3, 2, 1⟩ := by decide
example : parse "1h 2m 3s" = .ok ⟨3723, 3, 2, 1⟩ := by decide
example : parse "1:02:03" = .ok ⟨3723, 3, 2, 1⟩ := by decide
example : parse "2:3" = .ok ⟨123, 3, 2, 0⟩ := by decide
example : parse "11h 22m 33s" = .ok ⟨40953, 33, 22, 11⟩ := by decide
example : parse "1 minute 1 second" = .ok ⟨61, 1, 1, 0⟩ := by decide
example : parse "02 mins" = .ok ⟨120, 0, 2, 0⟩ := by decide
example : parse "00" = .error "no capture groups" := by decide
example : parse "0" = .error "no capture groups" := by decide
example : parse "2m1h" = .error "no bits capture group" := by decide
example : replace "abc" (fun _ _ => some "X") = .ok "abc" := by decide
example : replace "u 1:2 v" (fun _ _ => some "T") = .ok "u T v" := by decide
example : replace "00 and 1:2" (fun _ _ => some "T") = .ok "00 and T" := by decide
example : replace "u 1:2 v" (fun _ _ => none) = .ok "u 1:2 v" := by decide
example : replace "x 2m1h y" (fun _ _ => some "T") =
    .error "no bits capture group" := by decide
example : replace "a 1h1h b" (fun _ _ => some "X") =
    .error "no bits capture group" := by decide

/-- Claim C1 (code bug): the claim states that `make` on a bare total
decomposes it as `hours = total / 3600`, `minutes = (total mod 3600) / 60`,
`seconds = total mod 60` and always succeeds.  The code instead computes
`minutes = total mod 3600` and `seconds = 0` (the second `mod` call
multiplies by `secondsInMinute` before dividing by it), so the `verify`
call that `make` itself performs on its own decomposition throws for every
total that is not a multiple of 3600.  This theorem evaluates the code at
the failing inputs `{total: 61}` and `{total: 3661}`: both throw
`timestamp total did not match the sum`, where the claim promises
`{hours: 0, minutes: 1, seconds: 1}` and `{hours: 1, minutes: 1, seconds: 1}`. -/
theorem make_total_decomposition_throws :
    make ⟨some 61, none, none, none⟩ =
      .error "timestamp total did not match the sum" ∧
    make ⟨some 3661, none, none, none⟩ =
      .error "timestamp total did not match the sum" ∧
    make ⟨some 3600, none, none, none⟩ = .ok ⟨3600, 0, 0, 1⟩ := by
  decide

/-- Claim C3 (code bug): the claim states that a located substring whose
per-match parse fails is left verbatim and the scan continues.  In the
code, `parseCaptureGroups` throws `no bits capture group` inside the
replacement callback (the `if (timestamp)` guard is a leftover from an
older version that returned null) and the exception propagates out of
`String.prototype.replace`, aborting the whole substitution call.  Here
the locator matches the span `2m1h ` of `x 2m1h y` but the anchored
decomposer regex rejects it (units out of order), and the whole call
errors instead of returning the input unchanged. -/
theorem replace_aborts_on_bits_parse_failure :
    replace "x 2m1h y" (fun _ _ => some "T") = .error "no bits capture group" ∧
    (replace "x 2m1h y" (fun _ _ => some "T")).isOk = false := by
  decide

/-- Claim C4 counterexample: the claim states that
`makeYoutubeTimestamp (make {total: 0}) "abc"` with default options
returns the empty string and no hyperlink.  In the code the display text
defaults to `stringify(timestamp, Format.Short)`, which renders the
all-zero timestamp as the non-empty literal `00s`, so the guard
`if (text)` is taken and an anchor fragment is returned. -/
theorem youtube_link_zero_not_empty :
    make ⟨some 0, none, none, none⟩ = .ok ⟨0, 0, 0, 0⟩ ∧
    makeYoutubeTimestamp ⟨0, 0, 0, 0⟩ "abc" {} ≠ .ok "" := by
  decide

/-- Claim C4 amended: building a video link for the all-zero duration with
no text override emits a full anchor fragment (display text `00s`, target
time parameter `0s` from the Tiny style, hover title `0 seconds` from the
Long style); the empty-text fallback of the code is unreachable with
default options because every style renders a non-empty zero case. -/
theorem youtube_link_zero_emits_anchor :
    makeYoutubeTimestamp ⟨0, 0, 0, 0⟩ "abc" {} =
      .ok "<a class=\"youtube-timetamp\" data-total=\"0\" href=\"https://www.youtube.com/watch?v=abc&t=0s\" title=\"View the video abc at 0 seconds\">00s</a>" := by
  decide

/-- Claim C6: the compact form `1h2m3s`, the spaced form `1h 2m 3s` and
the colon form `1:02:03` all parse to the identical timestamp
`{hours: 1, minutes: 2, seconds: 3, total: 3723}`. -/
theorem parse_equivalence_examples :
    parse "1h2m3s" = .ok ⟨3723, 3, 2, 1⟩ ∧
    parse "1h 2m 3s" = .ok ⟨3723, 3, 2, 1⟩ ∧
    parse "1:02:03" = .ok ⟨3723, 3, 2, 1⟩ := by
  decide

/-- Claim C7: the six styles render the zero duration and the duration
`{hours: 1, minutes: 2, seconds: 3, total: 3723}` to exactly the literals
of the style table, including the asymmetry that the zero case of Short is
`00s` while Tiny, Medium and Long use a single digit. -/
theorem stringify_style_table :
    stringify ⟨0, 0, 0, 0⟩ .Numeric = .ok "0:00" ∧
    stringify ⟨0, 0, 0, 0⟩ .Seconds = .ok "0s" ∧
    stringify ⟨0, 0, 0, 0⟩ .Tiny = .ok "0s" ∧
    stringify ⟨0, 0, 0, 0⟩ .Short = .ok "00s" ∧
    stringify ⟨0, 0, 0, 0⟩ .Medium = .ok "0 secs" ∧
    stringify ⟨0, 0, 0, 0⟩ .Long = .ok "0 seconds" ∧
    stringify ⟨3723, 3, 2, 1⟩ .Numeric = .ok "1:02:03" ∧
    stringify ⟨3723, 3, 2, 1⟩ .Seconds = .ok "3723s" ∧
    stringify ⟨3723, 3, 2, 1⟩ .Tiny = .ok "1h2m3s" ∧
    stringify ⟨3723, 3, 2, 1⟩ .Short = .ok "1h 2m 3s" ∧
    stringify ⟨3723, 3, 2, 1⟩ .Medium = .ok "1 hours 2 mins 3 secs" ∧
    stringify ⟨3723, 3, 2, 1⟩ .Long = .ok "1 hours 2 minutes 3 seconds" := by
  decide

/-- Membership in a sequenced matcher decomposes into memberships of the
two parts. -/
theorem mem_mbind {α β : Type} {p : Matcher α} {f : α → Matcher β} {l : List Char}
    {b : β} {N : Nat} (h : (b, N) ∈ mbind p f l) :
    ∃ a n k, (a, n) ∈ p l ∧ (b, k) ∈ f a (l.drop n) ∧ N = n + k := by
  unfold mbind at h
  rw [List.mem_flatMap] at h
  obtain ⟨⟨a, n⟩, han, hb⟩ := h
  rw [List.mem_map] at hb
  obtain ⟨⟨b2, k⟩, hbk, heq⟩ := hb
  injection heq with h1 h2
  subst h1
  exact ⟨a, n, k, han, hbk, h2.symm⟩

/-- Every match of `\d{1,2}` consumes at least one character. -/
theorem digits12_pos {l d : List Char} {n : Nat} (h : (d, n) ∈ digits12 l) : 0 < n := by
  rcases l with _ | ⟨c1, _ | ⟨c2, rest⟩⟩
  · simp [digits12] at h
  · simp only [digits12] at h
    split_ifs at h
    · simp at h
      obtain ⟨h1, h2⟩ := h
      omega
    · simp at h
  · simp only [digits12] at h
    split_ifs at h
    · simp at h
      rcases h with ⟨h1, h2⟩ | ⟨h1, h2⟩ <;> omega
    · simp at h
      obtain ⟨h1, h2⟩ := h
      omega
    · simp at h

/-- A sequenced matcher whose first part always consumes consumes. -/
theorem mbind_pos_left {α β : Type} {p : Matcher α} {f : α → Matcher β}
    (hp : ∀ l a n, (a, n) ∈ p l → 0 < n) :
    ∀ l b N, (b, N) ∈ mbind p f l → 0 < N := by
  intro l b N h
  obtain ⟨a, n, k, h1, _, h3⟩ := mem_mbind h
  have := hp l a n h1
  omega

/-- A sequenced matcher whose second part always consumes consumes. -/
theorem mbind_pos_right {α β : Type} {p : Matcher α} {f : α → Matcher β}
    (hf : ∀ a l b n, (b, n) ∈ f a l → 0 < n) :
    ∀ l b N, (b, N) ∈ mbind p f l → 0 < N := by
  intro l b N h
  obtain ⟨a, n, k, _, h2, h3⟩ := mem_mbind h
  have := hf a (l.drop n) b k h2
  omega

/-- Every match of the colon alternative consumes at least one character
(the mandatory minutes digits). -/
theorem colonAlt_pos : ∀ (l : List Char) r n, (r, n) ∈ colonAlt l → 0 < n := by
  intro l r n h
  exact mbind_pos_right
    (fun a => mbind_pos_left (fun l2 a2 n2 h2 => digits12_pos h2)) l r n h

/-- Every match of a bits element consumes at least one character (the
mandatory digits). -/
theorem bitsElem_pos : ∀ (l : List Char) u n, (u, n) ∈ bitsElem l → 0 < n := by
  intro l u n h
  exact mbind_pos_left (fun l2 a2 n2 h2 => digits12_pos h2) l u n h

/-- Every match of the bits alternative consumes at least one character. -/
theorem bitsRun_pos {l : List Char} {u : Unit} {n : Nat}
    (h : (u, n) ∈ bitsRun l) : 0 < n := by
  unfold bitsRun at h
  exact mbind_pos_left bitsElem_pos l u n h

/-- Every match of the locator regex consumes at least one character. -/
theorem locAt_pos {l : List Char} {g : LocGroups} {n : Nat}
    (h : (g, n) ∈ locAt l) : 0 < n := by
  unfold locAt at h
  rcases List.mem_append.mp h with h | h
  · rw [List.mem_map] at h
    obtain ⟨⟨r, k⟩, hr, heq⟩ := h
    injection heq with h1 h2
    subst h2
    exact colonAlt_pos l r k hr
  · rw [List.mem_map] at h
    obtain ⟨⟨u, k⟩, hr, heq⟩ := h
    injection heq with h1 h2
    subst h2
    exact bitsRun_pos hr

/-- The scan split reconstructs the input, and the matched span is
non-empty. -/
theorem findSplit_spec : ∀ (l p : List Char) (g : LocGroups) (m rest : List Char),
    findSplit l = some (p, g, m, rest) → p ++ (m ++ rest) = l ∧ m ≠ [] := by
  intro l
  induction l with
  | nil => intro p g m rest h; simp [findSplit] at h
  | cons c ls ih =>
    intro p g m rest h
    unfold findSplit at h
    cases hla : locAt (c :: ls) with
    | cons r rs =>
      rw [hla] at h
      simp only [Option.some.injEq, Prod.mk.injEq] at h
      obtain ⟨hp, hg, hm, hr⟩ := h
      have hmem : (r.1, r.2) ∈ locAt (c :: ls) := by
        rw [hla]; exact List.mem_cons_self r rs
      have hpos : 0 < r.2 := locAt_pos hmem
      constructor
      · rw [← hp, ← hm, ← hr]
        simp [List.take_append_drop]
      · rw [← hm]
        obtain ⟨k, hk⟩ : ∃ k, r.2 = k + 1 := ⟨r.2 - 1, by omega⟩
        rw [hk]
        simp
    | nil =>
      rw [hla] at h
      cases hfs : findSplit ls with
      | none => rw [hfs] at h; simp at h
      | some r4 =>
        obtain ⟨p', g', m', rest'⟩ := r4
        rw [hfs] at h
        simp only [Option.some.injEq, Prod.mk.injEq] at h
        obtain ⟨hp, hg, hm, hr⟩ := h
        obtain ⟨ih1, ih2⟩ := ih p' g' m' rest' hfs
        subst hg hm hr
        constructor
        · rw [← hp]
          simp [ih1]
        · exact ih2

/-- The remainder of the scan split is strictly shorter than the input. -/
theorem findSplit_rest_lt {l p : List Char} {g : LocGroups} {m rest : List Char}
    (h : findSplit l = some (p, g, m, rest)) : rest.length < l.length := by
  obtain ⟨heq, hm⟩ := findSplit_spec l p g m rest h
  have h1 : p.length + (m.length + rest.length) = l.length := by
    rw [← heq]; simp
  have h2 : m.length ≠ 0 := by simpa using hm
  omega

/-- The segment scan does not depend on the fuel, once sufficient. -/
theorem segmentsGo_irrel : ∀ (f1 f2 : Nat) (l : List Char),
    l.length < f1 → l.length < f2 → segmentsGo f1 l = segmentsGo f2 l := by
  intro f1
  induction f1 with
  | zero => intro f2 l h1 h2; exact absurd h1 (Nat.not_lt_zero _)
  | succ n ih =>
    intro f2 l h1 h2
    cases f2 with
    | zero => exact absurd h2 (Nat.not_lt_zero _)
    | succ k =>
      unfold segmentsGo
      cases hfs : findSplit l with
      | none => rfl
      | some r4 =>
        obtain ⟨p, g, m, rest⟩ := r4
        have hlt : rest.length < l.length := findSplit_rest_lt hfs
        have := ih k rest (by omega) (by omega)
        simp [this]

/-- One-step unfolding of the segment scan. -/
theorem segments_eq (l : List Char) : segments l =
    match findSplit l with
    | none => [.plain l]
    | some (p, g, m, rest) => .plain p :: .found g m :: segments rest := by
  show segmentsGo (l.length + 1) l = _
  unfold segmentsGo
  cases hfs : findSplit l with
  | none => rfl
  | some r4 =>
    obtain ⟨p, g, m, rest⟩ := r4
    have hlt : rest.length < l.length := findSplit_rest_lt hfs
    have := segmentsGo_irrel l.length (rest.length + 1) rest (by omega) (by omega)
    simp [this, segments]

/-- The substitution scan does not depend on the fuel, once sufficient. -/
theorem replaceGo_irrel (f : Replacer) : ∀ (f1 f2 : Nat) (l : List Char),
    l.length < f1 → l.length < f2 → replaceGo f f1 l = replaceGo f f2 l := by
  intro f1
  induction f1 with
  | zero => intro f2 l h1 h2; exact absurd h1 (Nat.not_lt_zero _)
  | succ n ih =>
    intro f2 l h1 h2
    cases f2 with
    | zero => exact absurd h2 (Nat.not_lt_zero _)
    | succ k =>
      unfold replaceGo
      cases hfs : findSplit l with
      | none => rfl
      | some r4 =>
        obtain ⟨p, g, m, rest⟩ := r4
        have hlt : rest.length < l.length := findSplit_rest_lt hfs
        have := ih k rest (by omega) (by omega)
        simp [this]

/-- One-step unfolding of the substitution scan. -/
theorem replaceList_eq (f : Replacer) (l : List Char) : replaceList f l =
    match findSplit l with
    | none => .ok l
    | some (p, g, m, rest) =>
      match parseCaptureGroups (some g) with
      | .error e => .error e
      | .ok ts =>
        match replaceList f rest with
        | .error e => .error e
        | .ok rr =>
          .ok (p ++ (match f ts m with | some t => t | none => m) ++ rr) := by
  show replaceGo f (l.length + 1) l = _
  unfold replaceGo
  cases hfs : findSplit l with
  | none => rfl
  | some r4 =>
    obtain ⟨p, g, m, rest⟩ := r4
    have hlt : rest.length < l.length := findSplit_rest_lt hfs
    have := replaceGo_irrel f l.length (rest.length + 1) rest (by omega) (by omega)
    simp [this, replaceList]

/-- Evaluation of `make` on inputs with a falsy `total`: the units branch
runs, carrying seconds overflow into minutes and minutes overflow into
hours, and recomputing `total` as the weighted sum. -/
theorem make_units_eval (t : TimestampInput) (h : truthy t.total = false) :
    make t = .ok ⟨tv t.seconds % 60 + (tv t.minutes + tv t.seconds / 60) % 60 * 60 +
        (tv t.hours + (tv t.minutes + tv t.seconds / 60) / 60) * 3600,
      tv t.seconds % 60, (tv t.minutes + tv t.seconds / 60) % 60,
      tv t.hours + (tv t.minutes + tv t.seconds / 60) / 60⟩ := by
  obtain ⟨tot, s, m, hh⟩ := t
  unfold make
  simp only [h, Bool.false_eq_true, if_false]
  dsimp only [mod, sum, secondsInMinute, minutesInHour, secondsInHour, truthy, tv]
  simp only [Option.getD_some, bne_iff_ne, ne_eq]
  split_ifs with h1 h2 h3 h4 <;>
    dsimp only at * <;>
    simp only [Except.ok.injEq, Timestamp.mk.injEq, Option.getD_some, bne_iff_ne,
      ne_eq, true_and, and_true] at * <;>
    omega

/-- Evaluation of `make` on inputs with a truthy `total` and some truthy
unit: the fields are zero-filled and cross-checked against `total`. -/
theorem make_total_units_eval (t : TimestampInput)
    (h1 : tv t.total ≠ 0)
    (h2 : tv t.seconds ≠ 0 ∨ tv t.minutes ≠ 0 ∨ tv t.hours ≠ 0) :
    make t = (if tv t.total = sum t
      then .ok ⟨tv t.total, tv t.seconds, tv t.minutes, tv t.hours⟩
      else .error "timestamp total did not match the sum") := by
  obtain ⟨k, hk⟩ : ∃ k, t.total = some k := by
    cases htot : t.total with
    | none => rw [htot] at h1; simp [tv] at h1
    | some k => exact ⟨k, rfl⟩
  have ht : truthy t.total = true := by simp [truthy, bne_iff_ne, h1]
  have hcond : (truthy (some (tv t.seconds)) || truthy (some (tv t.minutes)) ||
      truthy (some (tv t.hours))) = true := by
    simp only [truthy, tv, Option.getD_some, bne_iff_ne, ne_eq, Bool.or_eq_true]
    rcases h2 with h2 | h2 | h2
    · exact Or.inl (Or.inl h2)
    · exact Or.inl (Or.inr h2)
    · exact Or.inr h2
  have hsum : sum ⟨t.total, some (tv t.seconds), some (tv t.minutes), some (tv t.hours)⟩
      = sum t := by simp [sum, tv]
  unfold make
  simp only [ht, if_true, hcond]
  unfold verify
  rw [hsum, hk]
  simp only [tv, Option.getD_some, Option.some.injEq]
  split_ifs with heq
  · rfl
  · rfl

/-- The shape shared by the two `verify` sites of `make`: if the guarded
branch returns normally, the result is the zero-filled record and its
total is its sum. -/
theorem verify_match_ok {X : TimestampInput} {ts : Timestamp}
    (h : (match verify X with
          | .error e => (.error e : Except String Timestamp)
          | .ok _ => .ok ⟨tv X.total, tv X.seconds, tv X.minutes, tv X.hours⟩) = .ok ts) :
    ts = ⟨tv X.total, tv X.seconds, tv X.minutes, tv X.hours⟩ ∧ tv X.total = sum X := by
  cases hv : verify X with
  | error e => rw [hv] at h; cases h
  | ok u =>
    rw [hv] at h
    injection h with h1
    unfold verify at hv
    split_ifs at hv with hc
    refine ⟨h1.symm, ?_⟩
    rw [hc]
    rfl

/-- Whenever `make` returns normally, the returned total is the weighted
sum of the returned unit fields. -/
theorem make_ok_total {t : TimestampInput} {ts : Timestamp} (h : make t = .ok ts) :
    ts.total = ts.seconds + ts.minutes * secondsInMinute + ts.hours * secondsInHour := by
  by_cases ht : truthy t.total
  · simp only [make, ht, if_true] at h
    split at h
    · obtain ⟨hts, hsum⟩ := verify_match_ok h
      subst hts
      simp only [sum, tv, Option.getD_some, secondsInMinute, secondsInHour,
        minutesInHour] at hsum ⊢
      omega
    · obtain ⟨hts, hsum⟩ := verify_match_ok h
      subst hts
      simp only [sum, tv, Option.getD_some, secondsInMinute, secondsInHour,
        minutesInHour] at hsum ⊢
      omega
  · have hf : truthy t.total = false := by
      cases hb : truthy t.total
      · rfl
      · exact absurd hb ht
    rw [make_units_eval t hf] at h
    injection h with h1
    rw [← h1]
    simp only [secondsInMinute, secondsInHour, minutesInHour]

/-- Claim C9 counterexample: the claim states that for every input text
and replacer the substitution engine returns an output in which all
non-matching text is preserved and matched spans are possibly replaced.
For the input `a 1h1h b` (the locator matches the span `1h1h `, which the
decomposer regex rejects) the engine returns no output at all: the call
aborts with the thrown parse error. -/
theorem replace_abort_counterexample :
    replace "a 1h1h b" (fun _ _ => some "X") = .error "no bits capture group" := by
  decide

theorem joinSegs_cons (g : Seg → List Char) (a : Seg) (L : List Seg) :
    joinSegs g (a :: L) = g a ++ joinSegs g L := rfl

theorem segText_plain (t : List Char) : segText (.plain t) = t := rfl

theorem segText_found (g : LocGroups) (t : List Char) : segText (.found g t) = t := rfl

theorem renderSeg_plain (f : Replacer) (t : List Char) : renderSeg f (.plain t) = t := rfl

/-- Claim C2 counterexample: the claim states that whenever `total` and a
unit field are simultaneously present, construction succeeds exactly when
`total` equals the unit sum.  With `{total: 0, seconds: 3}` both are
present and `0 ≠ 3`, yet construction succeeds (the zero total is falsy,
so the code takes the units branch and silently recomputes `total` to 3). -/
theorem make_zero_total_skips_check :
    make ⟨some 0, some 3, none, none⟩ = .ok ⟨3, 3, 0, 0⟩ ∧
    tv (⟨some 0, some 3, none, none⟩ : TimestampInput).total ≠
      sum ⟨some 0, some 3, none, none⟩ := by
  decide

/-- Claim C2 amended: for every input in which `total` is non-zero and at
least one of the unit fields is non-zero, construction succeeds exactly
when `total` equals `hours*3600 + minutes*60 + seconds` (absent units as
zero), returning the fields unchanged (absent units zero-filled); on
mismatch it fails with `timestamp total did not match the sum` and no
field is recomputed.  (When `total` is zero, or all supplied units are
zero, the code skips this cross-check: the zero total is falsy, and
all-zero units route to the total-decomposition branch.) -/
theorem make_total_with_units_checks_sum (t : TimestampInput)
    (h1 : tv t.total ≠ 0)
    (h2 : tv t.seconds ≠ 0 ∨ tv t.minutes ≠ 0 ∨ tv t.hours ≠ 0) :
    (tv t.total = sum t →
      make t = .ok ⟨tv t.total, tv t.seconds, tv t.minutes, tv t.hours⟩) ∧
    (tv t.total ≠ sum t →
      make t = .error "timestamp total did not match the sum") := by
  rw [make_total_units_eval t h1 h2]
  constructor
  · intro heq
    rw [if_pos heq]
  · intro hne
    rw [if_neg hne]

theorem make_total_mismatch_witness :
    make ⟨some 5, some 3, none, none⟩ =
      .error "timestamp total did not match the sum" :=
  (make_total_with_units_checks_sum ⟨some 5, some 3, none, none⟩ (by decide)
    (Or.inl (by decide))).2 (by decide)

/-- Claim C5: for every units-only input (no usable total, i.e. the total
is absent or zero and hence falsy), `make` carries seconds overflow into
minutes (`seconds mod 60` kept, `seconds / 60` added to minutes), then
minutes overflow into hours (`minutes mod 60` kept, `minutes / 60` added
to hours), leaves hours unbounded, and sets `total` to the weighted sum of
the normalized units. -/
theorem make_units_carry (t : TimestampInput) (h : tv t.total = 0) :
    make t = .ok ⟨tv t.seconds % 60 + (tv t.minutes + tv t.seconds / 60) % 60 * 60 +
        (tv t.hours + (tv t.minutes + tv t.seconds / 60) / 60) * 3600,
      tv t.seconds % 60, (tv t.minutes + tv t.seconds / 60) % 60,
      tv t.hours + (tv t.minutes + tv t.seconds / 60) / 60⟩ :=
  make_units_eval t (by simp [truthy, h])

theorem make_units_carry_witness :
    make ⟨none, some 125, none, none⟩ = .ok ⟨125, 5, 2, 0⟩ :=
  make_units_carry ⟨none, some 125, none, none⟩ rfl

/-- Claim C8: `parse` signals failure explicitly, as a thrown error, never
as a null or empty result: `parse "00"` and `parse "0"` fail with
`no capture groups`; every input with no locator match fails with
`no capture groups`; and every parse failure carries one of the two
messages `no capture groups` or `no bits capture group` (a successful
locator match always yields usable captures, so the units-only `make`
behind them cannot fail). -/
theorem parse_failure_modes :
    parse "00" = .error "no capture groups" ∧
    parse "0" = .error "no capture groups" ∧
    (∀ l : List Char, findSplit l = none → parseList l = .error "no capture groups") ∧
    (∀ (l : List Char) (e : String), parseList l = .error e →
      e = "no capture groups" ∨ e = "no bits capture group") := by
  refine ⟨by decide, by decide, ?_, ?_⟩
  · intro l h
    unfold parseList
    rw [h]
    rfl
  · intro l e h
    cases hfs : findSplit l with
    | none =>
      have hpl : parseList l = .error "no capture groups" := by
        unfold parseList
        rw [hfs]
        rfl
      have h2 := hpl.symm.trans h
      injection h2 with h1
      exact Or.inl h1.symm
    | some r4 =>
      obtain ⟨p, g, m, rest⟩ := r4
      have hpl : parseList l = parseCaptureGroups (some g) := by
        unfold parseList
        rw [hfs]
      rw [hpl] at h
      cases g with
      | colon hh mm ss =>
        rw [show parseCaptureGroups (some (LocGroups.colon hh mm ss)) =
          make ⟨none, some (numOf ss), some (numOf mm), some (numOfOpt hh)⟩ from rfl] at h
        rw [make_units_eval ⟨none, some (numOf ss), some (numOf mm), some (numOfOpt hh)⟩
          rfl] at h
        cases h
      | bits b =>
        rw [show parseCaptureGroups (some (LocGroups.bits b)) =
          (match tsAnchored b with
           | none => (.error "no bits capture group" : Except String Timestamp)
           | some (hg, mg, sg) => make ⟨none, some (numOfOpt sg), some (numOfOpt mg),
               some (numOfOpt hg)⟩) from rfl] at h
        cases hts : tsAnchored b with
        | none =>
          simp only [hts] at h
          injection h with h1
          exact Or.inr h1.symm
        | some r3 =>
          obtain ⟨hg, mg, sg⟩ := r3
          simp only [hts] at h
          rw [make_units_eval ⟨none, some (numOfOpt sg), some (numOfOpt mg),
            some (numOfOpt hg)⟩ rfl] at h
          cases h

theorem parse_failure_modes_witness :
    parseList "zz".data = .error "no capture groups" ∧
    ("no bits capture group" = "no capture groups" ∨
      "no bits capture group" = "no bits capture group") :=
  ⟨parse_failure_modes.2.2.1 "zz".data (by decide),
   parse_failure_modes.2.2.2 "2m1h".data "no bits capture group" (by decide)⟩

/-- The two scan decompositions agree: the segments reconstruct the input,
and a normal result of the substitution scan is the segment-wise render. -/
theorem replace_segments_aux : ∀ (N : Nat) (l : List Char), l.length ≤ N →
    ∀ f : Replacer,
    joinSegs segText (segments l) = l ∧
    (∀ res, replaceList f l = .ok res → res = joinSegs (renderSeg f) (segments l)) := by
  intro N
  induction N with
  | zero =>
    intro l hl f
    have hnil : l = [] := List.length_eq_zero.mp (Nat.le_zero.mp hl)
    subst hnil
    constructor
    · rw [segments_eq]
      simp [findSplit, joinSegs, segText]
    · intro res hres
      rw [replaceList_eq] at hres
      simp only [findSplit] at hres
      injection hres with h1
      rw [segments_eq]
      simp [findSplit, joinSegs, renderSeg]
      exact h1.symm
  | succ n ih =>
    intro l hl f
    cases hfs : findSplit l with
    | none =>
      constructor
      · rw [segments_eq, hfs]
        simp [joinSegs, segText]
      · intro res hres
        rw [replaceList_eq, hfs] at hres
        dsimp only at hres
        injection hres with h1
        rw [segments_eq, hfs]
        simp [joinSegs, renderSeg]
        exact h1.symm
    | some r4 =>
      obtain ⟨p, g, m, rest⟩ := r4
      obtain ⟨hrec, hm⟩ := findSplit_spec l p g m rest hfs
      have hlt : rest.length < l.length := findSplit_rest_lt hfs
      have ihr := ih rest (by omega) f
      constructor
      · rw [segments_eq, hfs]
        dsimp only
        rw [joinSegs_cons, joinSegs_cons, segText_plain, segText_found, ihr.1]
        exact hrec
      · intro res hres
        rw [replaceList_eq, hfs] at hres
        dsimp only at hres
        cases hpc : parseCaptureGroups (some g) with
        | error e => rw [hpc] at hres; cases hres
        | ok ts =>
          rw [hpc] at hres
          cases hrl : replaceList f rest with
          | error e => rw [hrl] at hres; cases hres
          | ok rr =>
            rw [hrl] at hres
            injection hres with h1
            have hr2 := ihr.2 rr hrl
            rw [segments_eq, hfs]
            dsimp only
            rw [joinSegs_cons, joinSegs_cons, renderSeg_plain]
            have hseg : renderSeg f (Seg.found g m) =
                (match f ts m with | some t => t | none => m) := by
              unfold renderSeg
              dsimp only
              rw [hpc]
            rw [hseg, ← h1, hr2]
            simp [List.append_assoc]

/-- Claim C9 amended: the substitution engine only ever alters the spans
matched by the locator.  The segment decomposition of the input (plain
text between matches, matched spans) reconstructs the input exactly;
whenever the call returns normally, its result is the input with each
matched span replaced exactly when its parse succeeds and the replacer
returns a non-null string (otherwise the span is kept verbatim), all plain
text preserved byte for byte; and an input with no locator match at all is
always returned unchanged (the call cannot fail on such text).  What the
original claim misses is that a matched span whose parse fails aborts the
whole call with the thrown error instead of being left alone (claim C3). -/
theorem replace_segment_behavior (l : List Char) (f : Replacer) :
    joinSegs segText (segments l) = l ∧
    (∀ res, replaceList f l = .ok res → res = joinSegs (renderSeg f) (segments l)) ∧
    (findSplit l = none → replaceList f l = .ok l) := by
  obtain ⟨h1, h2⟩ := replace_segments_aux l.length l le_rfl f
  refine ⟨h1, h2, fun h => ?_⟩
  rw [replaceList_eq, h]

theorem replace_segment_behavior_witness :
    ("u T v".data = joinSegs (renderSeg (fun _ _ => some "T".data))
      (segments "u 1:2 v".data)) ∧
    replaceList (fun _ _ => some "T".data) "pq".data = .ok "pq".data :=
  ⟨(replace_segment_behavior "u 1:2 v".data (fun _ _ => some "T".data)).2.1
      "u T v".data (by decide),
   (replace_segment_behavior "pq".data (fun _ _ => some "T".data)).2.2 (by decide)⟩

/-- Claim C10: whenever `make` returns normally, the returned timestamp
has all four fields present (structurally guaranteed by the `Timestamp`
type of the embedding, mirroring the zero-fills of the code) and satisfies
`total = seconds + minutes*60 + hours*3600`; consequently the `verify`
re-check inside `stringify` never throws on it, for any format: rendering
returns normally with the switch result. -/
theorem make_ok_renders (t : TimestampInput) (ts : Timestamp) (format : Format)
    (h : make t = .ok ts) :
    ts.total = ts.seconds + ts.minutes * secondsInMinute + ts.hours * secondsInHour ∧
    stringify ts format = .ok (stringifySwitch ts format) := by
  have htot := make_ok_total h
  refine ⟨htot, ?_⟩
  have hc : (⟨some ts.total, some ts.seconds, some ts.minutes, some ts.hours⟩ :
      TimestampInput).total = some (sum ⟨some ts.total, some ts.seconds,
      some ts.minutes, some ts.hours⟩) := by
    simp only [sum, tv, Option.getD_some]
    exact congrArg some htot
  have hv : verify ⟨some ts.total, some ts.seconds, some ts.minutes, some ts.hours⟩
      = .ok () := by
    unfold verify
    rw [if_pos hc]
  unfold stringify
  rw [hv]

theorem make_ok_renders_witness :
    (5 : Nat) = 5 + 0 * secondsInMinute + 0 * secondsInHour ∧
    stringify ⟨5, 5, 0, 0⟩ .Short = .ok (stringifySwitch ⟨5, 5, 0, 0⟩ .Short) :=
  make_ok_renders ⟨none, some 5, none, none⟩ ⟨5, 5, 0, 0⟩ .Short (by decide)

end DurationTimestamp
